import Mathlib

/-!
Verification of `ragen/llm_agent/generation_constant_turns.py` (RAGEN).

The file embeds the module shallowly:

* Python strings become `List Char` (wrapped in `String` at the interface);
* the regular expression `reward: \d+\.\d+\n|done: (True|False)\n` used by
  `_process_responses` becomes an explicit matcher (`matchLen`); on this
  pattern Python's backtracking is vacuous (each `\d+` run is forced because
  the following literal is never a digit), so the matcher is deterministic;
* `re.sub(pat, '', s)` becomes `reSub`, a single left-to-right pass that
  removes leftmost non-overlapping matches;
* batched 2-d integer tensors become `List (List Nat)` (a list of rows),
  with rectangularity tracked by hypotheses;
* the helper module `tensor_helper.py` is not part of the sources, so its
  four operations are modelled from the spec (see the doc comments below);
* the tokenizer, the rollout worker and the environment class are opaque
  collaborators, passed in as a record of functions.
-/

namespace Ragen

/-! ## Strings and the hack pattern (`_process_responses`) -/

/-- Length of the leading run of decimal digits (the forced value of a
greedy `\d+` at this position). -/
def digitRun : List Char → Nat
  | [] => 0
  | c :: cs => if c.isDigit then digitRun cs + 1 else 0

/-- Strip a literal from the front of a string; `some rest` on success. -/
def stripL : List Char → List Char → Option (List Char)
  | [], s => some s
  | _ :: _, [] => none
  | l :: ls, c :: cs => if c = l then stripL ls cs else none

/-- Match the first regex branch `reward: \d+\.\d+\n` at the head of `s`,
returning the matched length. -/
def matchB1 (s : List Char) : Option Nat :=
  match stripL "reward: ".data s with
  | none => none
  | some r1 =>
    let d1 := digitRun r1
    if d1 = 0 then none else
      match stripL ['.'] (r1.drop d1) with
      | none => none
      | some r2 =>
        let d2 := digitRun r2
        if d2 = 0 then none else
          match stripL ['\n'] (r2.drop d2) with
          | none => none
          | some _ => some (8 + d1 + 1 + d2 + 1)

/-- Match the second regex branch `done: (True|False)\n` at the head of `s`. -/
def matchB2 (s : List Char) : Option Nat :=
  match stripL "done: True\n".data s with
  | some _ => some 11
  | none =>
    match stripL "done: False\n".data s with
    | some _ => some 12
    | none => none

/-- Match the hack pattern `reward: \d+\.\d+\n|done: (True|False)\n` at the
head of `s` (first alternative tried first, as in Python `re`). -/
def matchLen (s : List Char) : Option Nat :=
  match matchB1 s with
  | some n => some n
  | none => matchB2 s

/-- Fuel-indexed single pass of `re.sub(hack_pattern, '', s)`: scan left to
right, delete each leftmost match and resume after it. -/
def reSubF : Nat → List Char → List Char
  | 0, s => s
  | _ + 1, [] => []
  | f + 1, c :: cs =>
    match matchLen (c :: cs) with
    | some n => reSubF f ((c :: cs).drop n)
    | none => c :: reSubF f cs

/-- `re.sub(hack_pattern, '', s)`: fuel `s.length` always suffices because
every match is non-empty. -/
def reSub (s : List Char) : List Char := reSubF s.length s

/-- `s` has a substring matching the hack pattern (a match starts at some
position). -/
def hasMatch : List Char → Bool
  | [] => false
  | c :: cs => (matchLen (c :: cs)).isSome || hasMatch cs

/-- The `</answer>` tag. -/
def tagL : List Char := "</answer>".data

/-- Text strictly before the first occurrence of the literal `t`;
`none` when `t` does not occur (`resp.split(t)[0]` when `t in resp`). -/
def splitFirst (t : List Char) : List Char → Option (List Char)
  | [] => if (stripL t ([] : List Char)).isSome then some [] else none
  | c :: cs =>
    if (stripL t (c :: cs)).isSome then some [] else
      (splitFirst t cs).map (fun b => c :: b)

/-- `resp.split('</answer>')[0] + '</answer>' if '</answer>' in resp else resp`. -/
def truncAnswer (s : List Char) : List Char :=
  match splitFirst tagL s with
  | some before => before ++ tagL
  | none => s

/-- One response through `_process_responses`: truncate after the first
`</answer>` tag, then delete the hack-pattern matches. -/
def processResp (s : List Char) : List Char := reSub (truncAnswer s)

/-- `_process_responses` (lines 54-66): list-level sanitisation. -/
def processResponses (rs : List String) : List String :=
  rs.map (fun r => String.mk (processResp r.data))

/-! ## Batched token tensors

A batched 2-d integer tensor is a list of rows of token ids; torch
rectangularity is carried by hypotheses (`Rect`). -/

abbrev Tensor := List (List Nat)

/-- `t.shape[1]` of a rectangular batched tensor. -/
def shape1 (t : Tensor) : Nat :=
  match t with
  | [] => 0
  | r :: _ => r.length

/-- Every row of `t` has length `w`. -/
abbrev Rect (t : Tensor) (w : Nat) : Prop := ∀ r ∈ t, r.length = w

/-- Number of non-pad tokens of a row (its attended length). -/
def countNonPad (pad : Nat) (row : List Nat) : Nat :=
  (row.filter (fun tok => tok ≠ pad)).length

/-- `row.sum()` of an attention-mask row. -/
def rowSum (r : List Nat) : Nat := r.foldr (· + ·) 0

/-- `l.max()` over a batch dimension (0 on an empty batch). -/
def maxFold (l : List Nat) : Nat := l.foldr max 0

/-- Modelled from the spec: `tensor_helper.py` is not among the sources and
the spec only promises "attention-mask … reconstruction", so
`create_attention_mask` marks each non-pad token with 1 and each pad with 0. -/
def create_attention_mask (pad : Nat) (t : Tensor) : Tensor :=
  t.map (fun row => row.map (fun tok => if tok = pad then 0 else 1))

/-- One row of position ids: running count of attended positions, 0 where
the mask is 0 (`(cumsum(mask) - 1) * mask`). -/
def posRow : Nat → List Nat → List Nat
  | _, [] => []
  | acc, m :: ms =>
    (if m = 0 then 0 else acc) :: posRow (if m = 0 then acc else acc + 1) ms

/-- Modelled from the spec: "position-id reconstruction" — position ids are
rebuilt from the attention mask alone. -/
def create_position_ids (mask : Tensor) : Tensor := mask.map (posRow 0)

/-- Regroup the pad tokens of a row on one side, preserving the relative
order of the non-pad tokens. -/
def movePads (pad : Nat) (padLeft : Bool) (row : List Nat) : List Nat :=
  if padLeft then
    row.filter (fun tok => tok = pad) ++ row.filter (fun tok => tok ≠ pad)
  else
    row.filter (fun tok => tok ≠ pad) ++ row.filter (fun tok => tok = pad)

/-- Row-wise concatenation of equally-sized batches along the sequence
dimension (`torch.cat(..., dim=1)`). -/
def joinRows : List Tensor → Tensor
  | [] => []
  | [t] => t
  | t :: ts => List.zipWith (· ++ ·) t (joinRows ts)

/-- Modelled from the spec: "padding … of ragged batched token sequences" —
`concatenate_with_padding` concatenates the batches along the sequence
dimension and regroups each row's padding on one side. -/
def concatenate_with_padding (pad : Nat) (padLeft : Bool) (ts : List Tensor) : Tensor :=
  (joinRows ts).map (movePads pad padLeft)

/-- Largest attended row length of the concatenated batch. -/
def maxNonPad (pad : Nat) (t : Tensor) : Nat := maxFold (t.map (countNonPad pad))

/-- The two tensors have identical shapes (same rows-by-columns profile). -/
def sameShape (a b : Tensor) : Prop := a.map List.length = b.map List.length

/-- `GenerationConfig` (lines 16-23); the `logging` sub-config only drives
the visualization paths, which the spec excludes. -/
structure GenerationConfig where
  max_turns : Nat
  max_start_length : Nat
  max_prompt_length : Nat
  max_response_length : Nat
  max_obs_length : Nat

/-- Python's `t[:, -n:]` column slice (for `n = 0` it is `t[:, 0:]`, the
whole row). -/
def negSlice (n : Nat) (row : List Nat) : List Nat :=
  if n = 0 then row else row.drop (row.length - n)

/-- `_process_next_obs` (lines 68-80): the opaque tokenizer call
`tokenizer(next_obs, padding='longest')['input_ids']` is the parameter
`tok`; its output is truncated on the right when wider than
`max_obs_length`. -/
def process_next_obs (tok : List String → Tensor) (max_obs_length : Nat)
    (next_obs : List String) : Tensor :=
  if max_obs_length < shape1 (tok next_obs) then
    (tok next_obs).map (fun row => row.take max_obs_length)
  else tok next_obs

/-- The rolling `DataProto.batch` of the loop. -/
structure RollState where
  input_ids : Tensor
  attention_mask : Tensor
  position_ids : Tensor
deriving DecidableEq

/-- `attention_mask.sum(dim=1).max()` of a mask tensor. -/
def maxSum (mask : Tensor) : Nat := maxFold (mask.map rowSum)

/-- `_update_rolling_state` (lines 82-104): concatenate, rebuild mask and
position ids, and cut to `min(max_prompt_length, effective_len)` columns
(the source slices `[:, :max_len]`). -/
def update_rolling_state (pad : Nat) (cfg : GenerationConfig) (rollings : RollState)
    (cur_responses next_obs_ids : Tensor) : RollState :=
  let new_input_ids := concatenate_with_padding pad true
      [rollings.input_ids, cur_responses, next_obs_ids]
  let new_attention_mask := create_attention_mask pad new_input_ids
  let new_position_ids := create_position_ids new_attention_mask
  let effective_len := maxSum new_attention_mask
  let max_len := min cfg.max_prompt_length effective_len
  { input_ids := new_input_ids.map (List.take max_len)
    position_ids := new_position_ids.map (List.take max_len)
    attention_mask := new_attention_mask.map (List.take max_len) }

/-- `_update_right_side` (lines 106-119): concatenate with right padding and
cut to `min(max_prompt_length, effective_len)` columns. -/
def update_right_side (pad : Nat) (cfg : GenerationConfig) (right_side : Tensor)
    (cur_responses next_obs_ids : Tensor) : Tensor :=
  let responses := concatenate_with_padding pad false
      [right_side, cur_responses, next_obs_ids]
  let effective_len := maxSum (create_attention_mask pad responses)
  let max_len := min cfg.max_prompt_length effective_len
  responses.map (List.take max_len)

/-- `meta_info` dictionaries; `dictUpdate` is Python `dict.update` (keys of
`b` override those of `a`). -/
abbrev Meta := List (String × String)

def dictUpdate (a b : Meta) : Meta :=
  a.filter (fun kv => !(b.any (fun kv2 => kv2.1 == kv.1))) ++ b

/-- The final `DataProto` assembled by `_compose_final_output`. -/
structure FinalOutput where
  responses : Tensor
  prompts : Tensor
  input_ids : Tensor
  attention_mask : Tensor
  position_ids : Tensor
  meta : Meta
deriving DecidableEq

/-- `_compose_final_output` (lines 219-245). -/
def compose_final_output (pad : Nat) (left : Tensor) (right : Tensor)
    (meta : Meta) : FinalOutput :=
  let attn := List.zipWith (· ++ ·)
      (create_attention_mask pad left) (create_attention_mask pad right)
  { responses := right
    prompts := left
    input_ids := List.zipWith (· ++ ·) left right
    attention_mask := attn
    position_ids := create_position_ids attn
    meta := meta }

/-! ## The orchestration loop -/

/-- Modelled from the spec: "length-budget enforcement across turns" —
`cut_to_effective_len` (called on the rolling batch, line 142) keeps for
each of the three rolling tensors the trailing columns up to the largest
attended row length, padding being on the left. -/
def cut_to_effective_len (st : RollState) : RollState :=
  let eff := maxSum st.attention_mask
  { input_ids := st.input_ids.map (negSlice eff)
    attention_mask := st.attention_mask.map (negSlice eff)
    position_ids := st.position_ids.map (negSlice eff) }

/-- The opaque collaborators of the loop: tokenizer (`tokenize` =
`_batch_tokenize`, `tokenizeObs` = the padded observation tokenization,
`decode` = `batch_decode`), rollout worker (`generate` =
`generate_sequences`, returning a responses tensor and its `meta_info`),
and environment class (`execute` = `execute_predictions` over the mutable
environments of type `E`, returning observations and done flags). -/
structure Collab (E : Type) where
  pad : Nat
  tokenize : List String → Tensor
  tokenizeObs : List String → Tensor
  decode : Tensor → List String
  generate : RollState → Tensor × Meta
  execute : E → List String → (List String × List Bool) × E

/-- Observable events of one loop iteration, in program order. -/
inductive Ev where
  | gen (input : RollState)
  | decoded (raw : List String)
  | sanitized (resp : List String)
  | stepped (resp : List String)
  | obsProcessed (obs : List String)
  | rolled
  | righted
deriving DecidableEq

/-- The mutable state of the loop body. -/
structure LoopState (E : Type) where
  rollings : RollState
  right : Tensor
  meta : Meta
  env : E

/-- One iteration of the main loop (lines 140-177), also recording the
ordered collaborator events; the `dones` component of `execute` is bound
but never used, as in the source. -/
def stepTurn {E : Type} (c : Collab E) (cfg : GenerationConfig) (st : LoopState E) :
    LoopState E × List Ev :=
  let rollings := cut_to_effective_len st.rollings
  let genOut := c.generate rollings
  let meta := dictUpdate st.meta genOut.2
  let raw := c.decode genOut.1
  let responses := processResponses raw
  let respIds := c.tokenize responses
  let stepOut := c.execute st.env responses
  let next_obs := stepOut.1.1
  let env2 := stepOut.2
  let next_obs_ids := process_next_obs c.tokenizeObs cfg.max_obs_length next_obs
  let rollings2 := update_rolling_state c.pad cfg rollings respIds next_obs_ids
  let right2 := update_right_side c.pad cfg st.right respIds next_obs_ids
  (⟨rollings2, right2, meta, env2⟩,
   [Ev.gen rollings, Ev.decoded raw, Ev.sanitized responses, Ev.stepped responses,
    Ev.obsProcessed next_obs, Ev.rolled, Ev.righted])

/-- `for step in range(max_turns)`: iterate `stepTurn`, accumulating the
event trace. -/
def runTurns {E : Type} (c : Collab E) (cfg : GenerationConfig) :
    Nat → LoopState E → LoopState E × List Ev
  | 0, st => (st, [])
  | n + 1, st =>
    let one := stepTurn c cfg st
    let rest := runTurns c cfg n one.1
    (rest.1, one.2 ++ rest.2)

/-- `run_llm_loop` (lines 121-181): slice the left prompt, start from an
empty right side, run `max_turns` iterations and compose the final output.
Returns the output together with the event trace. -/
def run_llm_loop {E : Type} (c : Collab E) (cfg : GenerationConfig)
    (gen_batch : RollState) (env0 : E) (initial_input_ids : Tensor) :
    FinalOutput × List Ev :=
  let left := initial_input_ids.map (negSlice cfg.max_start_length)
  let right0 : Tensor := initial_input_ids.map (fun _ => [])
  let fin := runTurns c cfg cfg.max_turns ⟨gen_batch, right0, [], env0⟩
  (compose_final_output c.pad left fin.1.right fin.1.meta, fin.2)

/-- A trace is well-formed when it is a sequence of complete turns, each in
the order generate / decode / sanitize / step / process-observation /
update-rolling / update-right, where the sanitized payload is
`_process_responses` of the decoded payload and the environment step
receives exactly the sanitized payload. -/
def okTrace : List Ev → Bool
  | [] => true
  | Ev.gen _ :: Ev.decoded raw :: Ev.sanitized s :: Ev.stepped s2 ::
      Ev.obsProcessed _ :: Ev.rolled :: Ev.righted :: rest =>
    decide (s = processResponses raw) && decide (s2 = s) && okTrace rest
  | _ => false

/-- Number of `generate_sequences` calls recorded in a trace. -/
def countGen (evs : List Ev) : Nat :=
  (evs.filter (fun e => match e with | Ev.gen _ => true | _ => false)).length

/-- A concrete deterministic collaborator bundle, used to instantiate the
loop theorems. -/
def trivCollab : Collab Unit :=
  { pad := 0
    tokenize := fun rs => rs.map (fun _ => [1])
    tokenizeObs := fun rs => rs.map (fun _ => [2])
    decode := fun t => t.map (fun _ => "a")
    generate := fun _ => ([[1]], [])
    execute := fun e rs => ((rs.map (fun _ => "o"), rs.map (fun _ => false)), e) }

/-! ### Lemmas about the matcher -/

theorem stripL_eq {l s r : List Char} (h : stripL l s = some r) : s = l ++ r := by
  induction l generalizing s with
  | nil => simpa [stripL] using h
  | cons a as ih =>
    cases s with
    | nil => simp [stripL] at h
    | cons c cs =>
      by_cases hc : c = a
      · subst hc
        simp only [stripL, if_pos rfl] at h
        simpa using ih h
      · simp [stripL, hc] at h

theorem digitRun_le (s : List Char) : digitRun s ≤ s.length := by
  induction s with
  | nil => simp [digitRun]
  | cons c cs ih =>
    by_cases h : c.isDigit
    · simp only [digitRun, if_pos h, List.length_cons]; omega
    · simp only [digitRun, if_neg h, List.length_cons]; omega

/-- A successful branch-1 match decomposes the string as `u ++ '\n' :: v`
with the matched text of length `n`. -/
theorem matchB1_decomp {s : List Char} {n : Nat} (h : matchB1 s = some n) :
    ∃ u v, s = u ++ '\n' :: v ∧ u.length + 1 = n := by
  unfold matchB1 at h
  rcases h1 : stripL "reward: ".data s with _ | r1
  · rw [h1] at h; exact absurd h (by simp)
  rw [h1] at h
  simp only at h
  by_cases hd1 : digitRun r1 = 0
  · simp [hd1] at h
  rw [if_neg hd1] at h
  rcases h2 : stripL ['.'] (r1.drop (digitRun r1)) with _ | r2
  · rw [h2] at h; exact absurd h (by simp)
  rw [h2] at h
  simp only at h
  by_cases hd2 : digitRun r2 = 0
  · simp [hd2] at h
  rw [if_neg hd2] at h
  rcases h3 : stripL ['\n'] (r2.drop (digitRun r2)) with _ | r3
  · rw [h3] at h; exact absurd h (by simp)
  rw [h3] at h
  have hn : n = 8 + digitRun r1 + 1 + digitRun r2 + 1 := by simpa using h.symm
  have e1 : s = "reward: ".data ++ r1 := stripL_eq h1
  have e2 : r1.drop (digitRun r1) = '.' :: r2 := by simpa using stripL_eq h2
  have e3 : r2.drop (digitRun r2) = '\n' :: r3 := by simpa using stripL_eq h3
  obtain ⟨t1, ht1, hr1⟩ : ∃ t1 : List Char, t1.length = digitRun r1 ∧
      r1 = t1 ++ '.' :: r2 := by
    refine ⟨r1.take (digitRun r1), ?_, ?_⟩
    · simp [List.length_take, Nat.min_eq_left (digitRun_le r1)]
    · conv_lhs => rw [← List.take_append_drop (digitRun r1) r1, e2]
  obtain ⟨t2, ht2, hr2⟩ : ∃ t2 : List Char, t2.length = digitRun r2 ∧
      r2 = t2 ++ '\n' :: r3 := by
    refine ⟨r2.take (digitRun r2), ?_, ?_⟩
    · simp [List.length_take, Nat.min_eq_left (digitRun_le r2)]
    · conv_lhs => rw [← List.take_append_drop (digitRun r2) r2, e3]
  refine ⟨"reward: ".data ++ t1 ++ '.' :: t2, r3, ?_, ?_⟩
  · rw [e1, hr1, hr2]
    simp
  · have l8 : ("reward: ".data).length = 8 := by decide
    simp only [List.length_append, List.length_cons, l8, ht1, ht2]
    omega

/-- A successful branch-2 match decomposes the string as `u ++ '\n' :: v`
with the matched text of length `n`. -/
theorem matchB2_decomp {s : List Char} {n : Nat} (h : matchB2 s = some n) :
    ∃ u v, s = u ++ '\n' :: v ∧ u.length + 1 = n := by
  unfold matchB2 at h
  rcases ht : stripL "done: True\n".data s with _ | r
  · rw [ht] at h
    rcases hf : stripL "done: False\n".data s with _ | r'
    · rw [hf] at h; exact absurd h (by simp)
    · rw [hf] at h
      obtain rfl : (12 : Nat) = n := by simpa using h
      refine ⟨"done: False".data, r', ?_, by decide⟩
      rw [stripL_eq hf, show "done: False\n".data = "done: False".data ++ ['\n']
        from by decide]
      simp
  · rw [ht] at h
    obtain rfl : (11 : Nat) = n := by simpa using h
    refine ⟨"done: True".data, r, ?_, by decide⟩
    rw [stripL_eq ht, show "done: True\n".data = "done: True".data ++ ['\n']
      from by decide]
    simp

/-- A successful match decomposes the string as `u ++ '\n' :: v` with the
matched text `u ++ ['\n']` of length `n`. -/
theorem matchLen_decomp {s : List Char} {n : Nat} (h : matchLen s = some n) :
    ∃ u v, s = u ++ '\n' :: v ∧ u.length + 1 = n := by
  unfold matchLen at h
  rcases hb1 : matchB1 s with _ | n1
  · rw [hb1] at h
    exact matchB2_decomp h
  · rw [hb1] at h
    obtain rfl : n1 = n := by simpa using h
    exact matchB1_decomp hb1

theorem matchLen_pos {s : List Char} {n : Nat} (h : matchLen s = some n) : 0 < n := by
  obtain ⟨u, v, _, hn⟩ := matchLen_decomp h
  omega

/-- A match found at the head of `x ++ "</answer>"` lies entirely inside `x`:
matched text ends with a newline and the tag has none. -/
theorem matchLen_append_tag {x : List Char} {n : Nat}
    (h : matchLen (x ++ tagL) = some n) : n ≤ x.length := by
  obtain ⟨u, v, he, hn⟩ := matchLen_decomp h
  by_contra hgt
  have hx : x.length ≤ u.length := by omega
  have h1 : (x ++ tagL)[u.length]? = some '\n' := by
    rw [he, List.getElem?_append_right (Nat.le_refl _)]
    simp
  rw [List.getElem?_append_right hx] at h1
  have : '\n' ∈ tagL := List.getElem?_mem h1
  exact absurd this (by decide)

/-- A string with no match anywhere passes through the substitution pass
unchanged, whatever the fuel. -/
theorem reSubF_of_hasMatch_false {s : List Char} (h : hasMatch s = false) :
    ∀ f, reSubF f s = s := by
  induction s with
  | nil => intro f; cases f <;> rfl
  | cons c cs ih =>
    intro f
    cases f with
    | zero => rfl
    | succ f =>
      simp only [hasMatch, Bool.or_eq_false_iff] at h
      have hm : matchLen (c :: cs) = none := by
        cases hml : matchLen (c :: cs) with
        | none => rfl
        | some n => rw [hml] at h; simp at h
      simp only [reSubF, hm]
      rw [ih h.2]

/-- Unfolding equation for `reSubF` at positive fuel on a cons cell. -/
theorem reSubF_cons (f : Nat) (c : Char) (cs : List Char) :
    reSubF (f + 1) (c :: cs) =
      match matchLen (c :: cs) with
      | some n => reSubF f ((c :: cs).drop n)
      | none => c :: reSubF f cs := rfl

/-- The substitution pass preserves a trailing `</answer>` tag: no match can
consume any character of the tag. -/
theorem reSubF_tag : ∀ (f : Nat) (x : List Char), x.length + 9 ≤ f →
    ∃ y, reSubF f (x ++ tagL) = y ++ tagL := by
  intro f
  induction f with
  | zero => intro x hx; omega
  | succ f ih =>
    intro x hx
    cases x with
    | nil =>
      have h2 : hasMatch "/answer>".data = false := by decide
      refine ⟨[], ?_⟩
      show reSubF (f + 1) tagL = tagL
      rw [show tagL = '<' :: "/answer>".data from by decide, reSubF_cons]
      rw [show matchLen ('<' :: "/answer>".data) = none from by decide]
      show '<' :: reSubF f "/answer>".data = '<' :: "/answer>".data
      rw [reSubF_of_hasMatch_false h2 f]
    | cons c cs =>
      rw [show (c :: cs) ++ tagL = c :: (cs ++ tagL) from rfl, reSubF_cons]
      cases hm : matchLen (c :: (cs ++ tagL)) with
      | some n =>
        have hm' : matchLen ((c :: cs) ++ tagL) = some n := hm
        have hle : n ≤ (c :: cs).length := matchLen_append_tag hm'
        have hpos : 0 < n := matchLen_pos hm
        show ∃ y, reSubF f ((c :: (cs ++ tagL)).drop n) = y ++ tagL
        have hdrop : (c :: (cs ++ tagL)).drop n = (c :: cs).drop n ++ tagL :=
          List.drop_append_of_le_length hle
        rw [hdrop]
        apply ih
        have hlen : ((c :: cs).drop n).length = (c :: cs).length - n :=
          List.length_drop n (c :: cs)
        simp only [List.length_cons] at hx hle hlen
        omega
      | none =>
        show ∃ y, c :: reSubF f (cs ++ tagL) = y ++ tagL
        obtain ⟨y, hy⟩ := ih cs (by simp only [List.length_cons] at hx; omega)
        exact ⟨c :: y, by rw [hy]; rfl⟩

/-- `splitFirst` returns the text before an actual occurrence of `t`. -/
theorem splitFirst_decomp {t s b : List Char} (h : splitFirst t s = some b) :
    ∃ rest, s = b ++ (t ++ rest) := by
  induction s generalizing b with
  | nil =>
    by_cases hh : (stripL t ([] : List Char)).isSome
    · obtain ⟨r, hr⟩ := Option.isSome_iff_exists.mp hh
      obtain rfl : b = [] := by
        simp only [splitFirst, if_pos hh, Option.some.injEq] at h
        exact h.symm
      exact ⟨r, by simpa using stripL_eq hr⟩
    · simp [splitFirst, hh] at h
  | cons c cs ih =>
    by_cases hh : (stripL t (c :: cs)).isSome
    · obtain ⟨r, hr⟩ := Option.isSome_iff_exists.mp hh
      obtain rfl : b = [] := by
        simp only [splitFirst, if_pos hh, Option.some.injEq] at h
        exact h.symm
      exact ⟨r, by simpa using stripL_eq hr⟩
    · simp only [splitFirst, if_neg hh] at h
      cases hsp : splitFirst t cs with
      | none => rw [hsp] at h; simp at h
      | some b' =>
        rw [hsp] at h
        simp only [Option.map_some', Option.some.injEq] at h
        obtain rfl : c :: b' = b := h
        obtain ⟨rest, hrest⟩ := ih hsp
        exact ⟨rest, by rw [hrest]; simp⟩

/-! ### Claim C1 and C6 theorems -/

/-- C1, counterexample: the claim "every string returned by
`_process_responses` contains no substring matching
`reward: \d+\.\d+\n|done: (True|False)\n`" is false.  On the input
`"rewdone: True\nard: 1.0\n"` the single `re.sub` pass deletes the match
`done: True\n`, and the juxtaposed remainder `reward: 1.0\n` — returned
unchanged — itself matches the pattern. -/
theorem c1_sanitizer_counterexample :
    processResponses ["rewdone: True\nard: 1.0\n"] = ["reward: 1.0\n"] ∧
    hasMatch ("reward: 1.0\n".data) = true := by
  constructor
  · decide
  · decide

/-- C1, amended: `_process_responses` performs a single left-to-right
deletion pass of the leftmost non-overlapping matches of the hack pattern
over each answer-truncated response; when the truncated response contains no
match at all it is returned unchanged and the output is match-free.  The
output is not match-free in general, because a deletion can juxtapose the
surrounding text into a new match. -/
theorem c1_sanitizer_single_pass (rs : List String) :
    processResponses rs = rs.map (fun r => String.mk (reSub (truncAnswer r.data))) ∧
    ∀ r ∈ rs, hasMatch (truncAnswer r.data) = false →
      processResp r.data = truncAnswer r.data ∧
      hasMatch (processResp r.data) = false := by
  refine ⟨rfl, ?_⟩
  intro r _ hclean
  have h1 : processResp r.data = truncAnswer r.data :=
    reSubF_of_hasMatch_false hclean (truncAnswer r.data).length
  exact ⟨h1, by rw [h1]; exact hclean⟩

/-- Witness for the amended C1 at a concrete clean input. -/
theorem c1_sanitizer_single_pass_witness :
    processResp "hi</answer>junk".data = truncAnswer "hi</answer>junk".data ∧
    hasMatch (processResp "hi</answer>junk".data) = false :=
  (c1_sanitizer_single_pass ["hi</answer>junk"]).2 "hi</answer>junk"
    (by decide) (by decide)

/-- C6: for every response containing `</answer>`, the string returned by
`_process_responses` is computed only from the prefix of the response up to
and including the first `</answer>` (`b ++ tagL` below, a prefix of the
response), and the returned string still ends with `</answer>`. -/
theorem c6_answer_tag_truncation (rs : List String) (r : String) (hmem : r ∈ rs)
    (b : List Char) (h : splitFirst tagL r.data = some b) :
    String.mk (processResp r.data) ∈ processResponses rs ∧
    processResp r.data = reSub (b ++ tagL) ∧
    (∃ rest, r.data = (b ++ tagL) ++ rest) ∧
    (∃ y, processResp r.data = y ++ tagL) := by
  have htr : truncAnswer r.data = b ++ tagL := by
    unfold truncAnswer
    rw [h]
  refine ⟨List.mem_map_of_mem _ hmem, by rw [processResp, htr], ?_, ?_⟩
  · obtain ⟨rest, hrest⟩ := splitFirst_decomp h
    exact ⟨rest, by rw [hrest]; simp⟩
  · rw [processResp, htr]
    unfold reSub
    apply reSubF_tag
    have h9 : tagL.length = 9 := by decide
    simp [List.length_append, h9]

/-! ### Lemmas about tensors -/

theorem length_filter_split (pad : Nat) (row : List Nat) :
    (row.filter (fun tok => tok = pad)).length +
      (row.filter (fun tok => tok ≠ pad)).length = row.length := by
  have h := List.length_eq_length_filter_add (l := row)
    (fun tok => decide (tok = pad))
  have e : row.filter (fun tok => tok ≠ pad)
      = row.filter (fun x => !(decide (x = pad))) := by
    apply List.filter_congr
    intro a _
    simp [decide_not]
  rw [e]
  omega

theorem movePads_length (pad : Nat) (b : Bool) (row : List Nat) :
    (movePads pad b row).length = row.length := by
  cases b with
  | true =>
    simp only [movePads, if_true, List.length_append]
    exact length_filter_split pad row
  | false =>
    simp only [movePads, Bool.false_eq_true, if_false, List.length_append]
    rw [Nat.add_comm]
    exact length_filter_split pad row

theorem filter_ne_movePads (pad : Nat) (b : Bool) (row : List Nat) :
    (movePads pad b row).filter (fun tok => tok ≠ pad)
      = row.filter (fun tok => tok ≠ pad) := by
  have h1 : (row.filter (fun tok => tok = pad)).filter (fun tok => tok ≠ pad)
      = [] := by
    rw [List.filter_filter]
    apply List.filter_eq_nil_iff.mpr
    intro a _
    by_cases h : a = pad <;> simp [h]
  have h2 : (row.filter (fun tok => tok ≠ pad)).filter (fun tok => tok ≠ pad)
      = row.filter (fun tok => tok ≠ pad) :=
    List.filter_eq_self.mpr (fun a ha => (List.mem_filter.mp ha).2)
  cases b with
  | true =>
    simp only [movePads, if_true, List.filter_append, h1, h2, List.nil_append]
  | false =>
    simp only [movePads, Bool.false_eq_true, if_false, List.filter_append, h1,
      h2, List.append_nil]

theorem countNonPad_movePads (pad : Nat) (b : Bool) (row : List Nat) :
    countNonPad pad (movePads pad b row) = countNonPad pad row := by
  unfold countNonPad
  rw [filter_ne_movePads]

theorem countNonPad_le (pad : Nat) (row : List Nat) :
    countNonPad pad row ≤ row.length :=
  List.length_filter_le _ row

theorem posRow_length (m : List Nat) : ∀ acc, (posRow acc m).length = m.length := by
  induction m with
  | nil => intro acc; rfl
  | cons a l ih => intro acc; simp [posRow, ih]

theorem rowSum_cons (x : Nat) (xs : List Nat) :
    rowSum (x :: xs) = x + rowSum xs := rfl

theorem countNonPad_cons (pad a : Nat) (l : List Nat) :
    countNonPad pad (a :: l) = (if a = pad then 0 else 1) + countNonPad pad l := by
  unfold countNonPad
  rw [List.filter_cons]
  by_cases h : a = pad
  · simp [h]
  · simp [h]
    omega

theorem mask_row_sum (pad : Nat) (row : List Nat) :
    rowSum (row.map (fun tok => if tok = pad then 0 else 1))
      = countNonPad pad row := by
  induction row with
  | nil => rfl
  | cons a l ih =>
    rw [List.map_cons, rowSum_cons, ih, countNonPad_cons]

theorem mask_shape (pad : Nat) (t : Tensor) :
    (create_attention_mask pad t).map List.length = t.map List.length := by
  unfold create_attention_mask
  rw [List.map_map]
  exact List.map_congr_left (fun row _ => by simp)

theorem pos_shape (mask : Tensor) :
    (create_position_ids mask).map List.length = mask.map List.length := by
  unfold create_position_ids
  rw [List.map_map]
  exact List.map_congr_left (fun row _ => posRow_length row 0)

theorem maxSum_mask (pad : Nat) (t : Tensor) :
    maxSum (create_attention_mask pad t) = maxNonPad pad t := by
  unfold maxSum maxNonPad create_attention_mask
  rw [List.map_map]
  congr 1
  exact List.map_congr_left (fun row _ => mask_row_sum pad row)

theorem maxNonPad_movePads (pad : Nat) (b : Bool) (t : Tensor) :
    maxNonPad pad (t.map (movePads pad b)) = maxNonPad pad t := by
  unfold maxNonPad
  rw [List.map_map]
  congr 1
  exact List.map_congr_left (fun row _ => countNonPad_movePads pad b row)

theorem maxFold_le {l : List Nat} {W : Nat} (h : ∀ x ∈ l, x ≤ W) :
    maxFold l ≤ W := by
  induction l with
  | nil => simp [maxFold]
  | cons a t ih =>
    have ha := h a (by simp)
    have ht : maxFold t ≤ W := ih (fun x hx => h x (by simp [hx]))
    simp only [maxFold, List.foldr_cons] at ht ⊢
    exact Nat.max_le.mpr ⟨ha, ht⟩

theorem mem_zipWith_append {r : List Nat} {a b : Tensor}
    (h : r ∈ List.zipWith (· ++ ·) a b) : ∃ x ∈ a, ∃ y ∈ b, r = x ++ y := by
  induction a generalizing b with
  | nil => simp at h
  | cons x xs ih =>
    cases b with
    | nil => simp at h
    | cons y ys =>
      simp only [List.zipWith_cons_cons, List.mem_cons] at h
      rcases h with h | h
      · exact ⟨x, by simp, y, by simp, h⟩
      · obtain ⟨x2, hx2, y2, hy2, hr⟩ := ih h
        exact ⟨x2, by simp [hx2], y2, by simp [hy2], hr⟩

theorem joinRows_three (a b c : Tensor) :
    joinRows [a, b, c] = List.zipWith (· ++ ·) a (List.zipWith (· ++ ·) b c) := rfl

theorem joinRows_row_length {a b c : Tensor} {w1 w2 w3 : Nat}
    (h1 : Rect a w1) (h2 : Rect b w2) (h3 : Rect c w3) :
    ∀ r ∈ joinRows [a, b, c], r.length = w1 + w2 + w3 := by
  intro r hr
  rw [joinRows_three] at hr
  obtain ⟨x, hx, yz, hyz, rfl⟩ := mem_zipWith_append hr
  obtain ⟨y, hy, z, hz, rfl⟩ := mem_zipWith_append hyz
  simp only [List.length_append, h1 x hx, h2 y hy, h3 z hz]
  omega

theorem map_length_map_take (n : Nat) (X : Tensor) :
    (X.map (List.take n)).map List.length
      = (X.map List.length).map (fun l => min n l) := by
  rw [List.map_map, List.map_map]
  exact List.map_congr_left (fun row _ => by simp [List.length_take])

/-- Witness for C6 at a concrete input containing `</answer>`. -/
theorem c6_answer_tag_truncation_witness :
    String.mk (processResp "x</answer>y done: True\n".data) ∈
      processResponses ["x</answer>y done: True\n"] ∧
    processResp "x</answer>y done: True\n".data = reSub ("x".data ++ tagL) ∧
    (∃ rest, "x</answer>y done: True\n".data = ("x".data ++ tagL) ++ rest) ∧
    (∃ y, processResp "x</answer>y done: True\n".data = y ++ tagL) :=
  c6_answer_tag_truncation ["x</answer>y done: True\n"] "x</answer>y done: True\n"
    (by decide) "x".data (by decide)

/-! ### Claims C3, C4, C5, C8 -/

theorem update_rolling_state_eq (pad : Nat) (cfg : GenerationConfig)
    (roll : RollState) (resp obs : Tensor) :
    update_rolling_state pad cfg roll resp obs =
      { input_ids := ((joinRows [roll.input_ids, resp, obs]).map
          (movePads pad true)).map (List.take (min cfg.max_prompt_length
            (maxNonPad pad (joinRows [roll.input_ids, resp, obs]))))
        position_ids := (create_position_ids (create_attention_mask pad
          ((joinRows [roll.input_ids, resp, obs]).map (movePads pad true)))).map
            (List.take (min cfg.max_prompt_length
              (maxNonPad pad (joinRows [roll.input_ids, resp, obs]))))
        attention_mask := (create_attention_mask pad
          ((joinRows [roll.input_ids, resp, obs]).map (movePads pad true))).map
            (List.take (min cfg.max_prompt_length
              (maxNonPad pad (joinRows [roll.input_ids, resp, obs])))) } := by
  simp only [update_rolling_state, concatenate_with_padding]
  rw [maxSum_mask, maxNonPad_movePads]

/-- C3: after `_update_rolling_state` the returned `input_ids`,
`position_ids` and `attention_mask` all have the same shape; every row has
length `min(max_prompt_length, L)`, where `L` is the largest per-row count
of attended (non-pad) tokens of the concatenated sequence; in particular
the rolling width never exceeds `max_prompt_length`.  (`create_attention_mask`,
`create_position_ids` and `concatenate_with_padding` live in the absent
`tensor_helper.py` and are modelled from the spec.) -/
theorem c3_rolling_budget (pad : Nat) (cfg : GenerationConfig) (roll : RollState)
    (resp obs : Tensor) (w1 w2 w3 : Nat)
    (h1 : Rect roll.input_ids w1) (h2 : Rect resp w2) (h3 : Rect obs w3) :
    sameShape (update_rolling_state pad cfg roll resp obs).input_ids
      (update_rolling_state pad cfg roll resp obs).attention_mask ∧
    sameShape (update_rolling_state pad cfg roll resp obs).input_ids
      (update_rolling_state pad cfg roll resp obs).position_ids ∧
    (∀ r ∈ (update_rolling_state pad cfg roll resp obs).input_ids,
      r.length = min cfg.max_prompt_length
        (maxNonPad pad (joinRows [roll.input_ids, resp, obs]))) ∧
    (∀ r ∈ (update_rolling_state pad cfg roll resp obs).input_ids,
      r.length ≤ cfg.max_prompt_length) := by
  have key := update_rolling_state_eq pad cfg roll resp obs
  have hW : ∀ r ∈ joinRows [roll.input_ids, resp, obs],
      r.length = w1 + w2 + w3 := joinRows_row_length h1 h2 h3
  have hL : maxNonPad pad (joinRows [roll.input_ids, resp, obs])
      ≤ w1 + w2 + w3 := by
    apply maxFold_le
    intro x hx
    obtain ⟨row, hrow, rfl⟩ := List.mem_map.mp hx
    exact (countNonPad_le pad row).trans (le_of_eq (hW row hrow))
  have hrow : ∀ r ∈ (update_rolling_state pad cfg roll resp obs).input_ids,
      r.length = min cfg.max_prompt_length
        (maxNonPad pad (joinRows [roll.input_ids, resp, obs])) := by
    rw [key]
    intro r hr
    obtain ⟨q, hq, rfl⟩ := List.mem_map.mp hr
    obtain ⟨jr, hjr, rfl⟩ := List.mem_map.mp hq
    rw [List.length_take, movePads_length, hW jr hjr]
    exact Nat.min_eq_left ((Nat.min_le_right _ _).trans hL)
  refine ⟨?_, ?_, hrow, ?_⟩
  · rw [key]
    show sameShape _ _
    unfold sameShape
    rw [map_length_map_take, map_length_map_take, mask_shape]
  · rw [key]
    show sameShape _ _
    unfold sameShape
    rw [map_length_map_take, map_length_map_take, pos_shape, mask_shape]
  · intro r hr
    rw [hrow r hr]
    exact Nat.min_le_left _ _

/-- Witness for C3 at concrete rectangular batches. -/
theorem c3_rolling_budget_witness :
    sameShape (update_rolling_state 0 ⟨1, 1, 3, 1, 1⟩ ⟨[[1, 2]], [[1, 1]], [[0, 1]]⟩
        [[3]] [[4]]).input_ids
      (update_rolling_state 0 ⟨1, 1, 3, 1, 1⟩ ⟨[[1, 2]], [[1, 1]], [[0, 1]]⟩
        [[3]] [[4]]).attention_mask ∧
    sameShape (update_rolling_state 0 ⟨1, 1, 3, 1, 1⟩ ⟨[[1, 2]], [[1, 1]], [[0, 1]]⟩
        [[3]] [[4]]).input_ids
      (update_rolling_state 0 ⟨1, 1, 3, 1, 1⟩ ⟨[[1, 2]], [[1, 1]], [[0, 1]]⟩
        [[3]] [[4]]).position_ids ∧
    (∀ r ∈ (update_rolling_state 0 ⟨1, 1, 3, 1, 1⟩ ⟨[[1, 2]], [[1, 1]], [[0, 1]]⟩
        [[3]] [[4]]).input_ids,
      r.length = min 3 (maxNonPad 0 (joinRows [[[1, 2]], [[3]], [[4]]]))) ∧
    (∀ r ∈ (update_rolling_state 0 ⟨1, 1, 3, 1, 1⟩ ⟨[[1, 2]], [[1, 1]], [[0, 1]]⟩
        [[3]] [[4]]).input_ids, r.length ≤ 3) :=
  c3_rolling_budget 0 ⟨1, 1, 3, 1, 1⟩ ⟨[[1, 2]], [[1, 1]], [[0, 1]]⟩ [[3]] [[4]]
    2 1 1 (by decide) (by decide) (by decide)

theorem stepTurn_maxR {E : Type} (c : Collab E) (cfg : GenerationConfig) (x : Nat)
    (st : LoopState E) :
    stepTurn c { cfg with max_response_length := x } st = stepTurn c cfg st := rfl

theorem runTurns_maxR {E : Type} (c : Collab E) (cfg : GenerationConfig) (x : Nat) :
    ∀ (n : Nat) (st : LoopState E),
      runTurns c { cfg with max_response_length := x } n st
        = runTurns c cfg n st := by
  intro n
  induction n with
  | zero => intro st; rfl
  | succ n ih =>
    intro st
    show (runTurns c { cfg with max_response_length := x } (n + 1) st) = _
    simp only [runTurns]
    rw [stepTurn_maxR, ih]

theorem run_llm_loop_maxR {E : Type} (c : Collab E) (cfg : GenerationConfig)
    (x : Nat) (gb : RollState) (env0 : E) (ii : Tensor) :
    run_llm_loop c { cfg with max_response_length := x } gb env0 ii
      = run_llm_loop c cfg gb env0 ii := by
  simp only [run_llm_loop]
  rw [show ({ cfg with max_response_length := x } : GenerationConfig).max_turns
    = cfg.max_turns from rfl]
  rw [runTurns_maxR]

/-- C4: the accumulated right side is cut to `max_prompt_length` (every row
of `_update_right_side` is at most `max_prompt_length` long);
`max_response_length` is read neither by `_update_right_side` nor anywhere
in `run_llm_loop`; and whenever `max_response_length < max_prompt_length`
there are inputs whose accumulated responses row is wider than
`max_response_length`. -/
theorem c4_response_budget (pad : Nat) (cfg : GenerationConfig)
    (right resp obs : Tensor) (x : Nat) :
    (∀ r ∈ update_right_side pad cfg right resp obs,
      r.length ≤ cfg.max_prompt_length) ∧
    (update_right_side pad { cfg with max_response_length := x } right resp obs
      = update_right_side pad cfg right resp obs) ∧
    (∀ (E : Type) (c : Collab E) (gb : RollState) (env0 : E) (ii : Tensor),
      run_llm_loop c { cfg with max_response_length := x } gb env0 ii
        = run_llm_loop c cfg gb env0 ii) ∧
    (cfg.max_response_length < cfg.max_prompt_length →
      ∃ (p : Nat) (r2 o2 : Tensor) (row : List Nat),
        row ∈ update_right_side p cfg [[]] r2 o2 ∧
        cfg.max_response_length < row.length) := by
  refine ⟨?_, rfl, fun E c gb env0 ii => run_llm_loop_maxR c cfg x gb env0 ii, ?_⟩
  · intro r hr
    unfold update_right_side at hr
    obtain ⟨q, _, rfl⟩ := List.mem_map.mp hr
    rw [List.length_take]
    exact (Nat.min_le_left _ _).trans (Nat.min_le_left _ _)
  · intro hlt
    set k := cfg.max_response_length + 1 with hk
    have hkle : k ≤ cfg.max_prompt_length := by omega
    have hfne : (List.replicate k 1).filter (fun tok => tok ≠ (0 : Nat))
        = List.replicate k 1 :=
      List.filter_eq_self.mpr (fun a ha => by
        rw [List.eq_of_mem_replicate ha]; simp)
    have hfeq : (List.replicate k 1).filter (fun tok => tok = (0 : Nat)) = [] :=
      List.filter_eq_nil_iff.mpr (fun a ha => by
        rw [List.eq_of_mem_replicate ha]; simp)
    have hmove : movePads 0 false (List.replicate k 1) = List.replicate k 1 := by
      unfold movePads
      rw [if_neg (by simp), hfne, hfeq, List.append_nil]
    have hJ : joinRows [[([] : List Nat)], [List.replicate k 1], [[]]]
        = [List.replicate k 1] := by
      rw [joinRows_three]
      simp
    have hcount : countNonPad 0 (List.replicate k 1) = k := by
      unfold countNonPad
      rw [hfne, List.length_replicate]
    have hres : update_right_side 0 cfg [[]] [List.replicate k 1] [[]]
        = [List.replicate k 1] := by
      unfold update_right_side concatenate_with_padding
      rw [hJ]
      simp only [List.map_cons, List.map_nil, hmove]
      rw [maxSum_mask]
      have hmx : maxNonPad 0 [List.replicate k 1] = k := by
        unfold maxNonPad maxFold
        simp [hcount]
      rw [hmx, Nat.min_eq_right hkle]
      simp [List.take_replicate]
    exact ⟨0, [List.replicate k 1], [[]], List.replicate k 1,
      by rw [hres]; simp, by simp [List.length_replicate]⟩

/-- Witness for C4 at a concrete configuration with
`max_response_length = 1 < 3 = max_prompt_length`. -/
theorem c4_response_budget_witness :
    ([4, 5, 6] : List Nat).length ≤ 3 ∧
    (update_right_side 0 ⟨1, 1, 3, 9, 2⟩ [[4]] [[5]] [[6]]
      = update_right_side 0 ⟨1, 1, 3, 1, 2⟩ [[4]] [[5]] [[6]]) ∧
    (run_llm_loop trivCollab ⟨1, 1, 3, 9, 2⟩ ⟨[[1]], [[1]], [[0]]⟩ () [[1, 2]]
      = run_llm_loop trivCollab ⟨1, 1, 3, 1, 2⟩ ⟨[[1]], [[1]], [[0]]⟩ () [[1, 2]]) ∧
    (∃ (p : Nat) (r2 o2 : Tensor) (row : List Nat),
      row ∈ update_right_side p ⟨1, 1, 3, 1, 2⟩ [[]] r2 o2 ∧ 1 < row.length) := by
  have h := c4_response_budget 0 ⟨1, 1, 3, 1, 2⟩ [[4]] [[5]] [[6]] 9
  exact ⟨h.1 [4, 5, 6] (by decide), h.2.1, h.2.2.1 Unit trivCollab ⟨[[1]], [[1]], [[0]]⟩ () [[1, 2]],
    h.2.2.2 (by decide)⟩

/-- C5: for a non-empty observation batch, `_process_next_obs` returns the
(batch) tokenization truncated on the right to at most
`max_obs_length` columns, and returns it unchanged whenever its width is
already at most `max_obs_length`. -/
theorem c5_obs_budget (tok : List String → Tensor) (max_obs_length : Nat)
    (next_obs : List String) (w : Nat)
    (hw : Rect (tok next_obs) w)
    (hlen : (tok next_obs).length = next_obs.length)
    (hne : next_obs ≠ []) :
    process_next_obs tok max_obs_length next_obs
      = (tok next_obs).map (fun row => row.take (min w max_obs_length)) ∧
    (w ≤ max_obs_length →
      process_next_obs tok max_obs_length next_obs = tok next_obs) ∧
    ∀ r ∈ process_next_obs tok max_obs_length next_obs,
      r.length = min w max_obs_length := by
  have hsh : shape1 (tok next_obs) = w := by
    cases hto : tok next_obs with
    | nil =>
      exfalso
      rw [hto] at hlen
      exact hne (List.length_eq_zero.mp hlen.symm)
    | cons r rs =>
      show r.length = w
      exact hw r (by rw [hto]; simp)
  unfold process_next_obs
  rw [hsh]
  by_cases hc : max_obs_length < w
  · rw [if_pos hc]
    have hmin : min w max_obs_length = max_obs_length :=
      Nat.min_eq_right (Nat.le_of_lt hc)
    refine ⟨by rw [hmin], fun hle => absurd hc (by omega), ?_⟩
    intro r hr
    obtain ⟨row, hrow, rfl⟩ := List.mem_map.mp hr
    rw [List.length_take, hw row hrow, hmin]
    exact Nat.min_eq_left (Nat.le_of_lt hc)
  · rw [if_neg hc]
    have hle : w ≤ max_obs_length := by omega
    have hmin : min w max_obs_length = w := Nat.min_eq_left hle
    have hid : (tok next_obs).map (fun row => row.take (min w max_obs_length))
        = tok next_obs := by
      rw [hmin]
      conv_rhs => rw [← List.map_id (tok next_obs)]
      apply List.map_congr_left
      intro row hr
      simp [List.take_of_length_le (le_of_eq (hw row hr))]
    exact ⟨hid.symm, fun _ => rfl, fun r hr => by rw [hw r hr, hmin]⟩

/-- Witness for C5 at a concrete tokenizer output that is too wide. -/
theorem c5_obs_budget_witness :
    process_next_obs (fun _ => [[1, 2], [3, 4]]) 1 ["a", "b"]
      = [[1, 2], [3, 4]].map (fun row => row.take (min 2 1)) ∧
    ((2 : Nat) ≤ 1 →
      process_next_obs (fun _ => [[1, 2], [3, 4]]) 1 ["a", "b"] = [[1, 2], [3, 4]]) ∧
    ∀ r ∈ process_next_obs (fun _ => [[1, 2], [3, 4]]) 1 ["a", "b"],
      r.length = min 2 1 :=
  c5_obs_budget (fun _ => [[1, 2], [3, 4]]) 1 ["a", "b"] 2
    (by decide) (by decide) (by decide)

theorem zip_append_lengths (a b : Tensor) :
    (List.zipWith (· ++ ·) a b).map List.length
      = List.zipWith (· + ·) (a.map List.length) (b.map List.length) := by
  induction a generalizing b with
  | nil => simp
  | cons x xs ih => cases b <;> simp [ih]

/-- C8: `_compose_final_output` returns `prompts = left_side['input_ids']`,
`input_ids` the column-wise concatenation of the left input ids and the
right responses, `attention_mask` the concatenation of the masks rebuilt
from those two parts (hence of the same shape as `input_ids`), and
`position_ids` recomputed from that attention mask. -/
theorem c8_compose_final_output (pad : Nat) (left right : Tensor) (meta : Meta) :
    (compose_final_output pad left right meta).prompts = left ∧
    (compose_final_output pad left right meta).responses = right ∧
    (compose_final_output pad left right meta).input_ids
      = List.zipWith (· ++ ·) left right ∧
    (compose_final_output pad left right meta).attention_mask
      = List.zipWith (· ++ ·) (create_attention_mask pad left)
          (create_attention_mask pad right) ∧
    sameShape (compose_final_output pad left right meta).attention_mask
      (compose_final_output pad left right meta).input_ids ∧
    (compose_final_output pad left right meta).position_ids
      = create_position_ids (compose_final_output pad left right meta).attention_mask ∧
    (compose_final_output pad left right meta).meta = meta := by
  refine ⟨rfl, rfl, rfl, rfl, ?_, rfl, rfl⟩
  show sameShape _ _
  unfold sameShape compose_final_output
  rw [zip_append_lengths, zip_append_lengths, mask_shape, mask_shape]

/-! ### Claims C2, C7, C9, C10: the loop -/

theorem stepTurn_snd {E : Type} (c : Collab E) (cfg : GenerationConfig)
    (st : LoopState E) :
    (stepTurn c cfg st).2 =
      [Ev.gen (cut_to_effective_len st.rollings),
       Ev.decoded (c.decode (c.generate (cut_to_effective_len st.rollings)).1),
       Ev.sanitized (processResponses
         (c.decode (c.generate (cut_to_effective_len st.rollings)).1)),
       Ev.stepped (processResponses
         (c.decode (c.generate (cut_to_effective_len st.rollings)).1)),
       Ev.obsProcessed ((c.execute st.env (processResponses
         (c.decode (c.generate (cut_to_effective_len st.rollings)).1))).1.1),
       Ev.rolled, Ev.righted] := rfl

theorem countGen_append (a b : List Ev) :
    countGen (a ++ b) = countGen a + countGen b := by
  unfold countGen
  rw [List.filter_append, List.length_append]

theorem countGen_stepTurn {E : Type} (c : Collab E) (cfg : GenerationConfig)
    (st : LoopState E) : countGen (stepTurn c cfg st).2 = 1 := by
  rw [stepTurn_snd]
  rfl

theorem countGen_runTurns {E : Type} (c : Collab E) (cfg : GenerationConfig) :
    ∀ (n : Nat) (st : LoopState E), countGen (runTurns c cfg n st).2 = n := by
  intro n
  induction n with
  | zero => intro st; rfl
  | succ n ih =>
    intro st
    show countGen ((stepTurn c cfg st).2
      ++ (runTurns c cfg n (stepTurn c cfg st).1).2) = n + 1
    rw [countGen_append, countGen_stepTurn, ih]
    omega

theorem stepTurn_execSwap {E : Type} (c : Collab E)
    (e2 : E → List String → (List String × List Bool) × E)
    (hobs : ∀ env rs, (c.execute env rs).1.1 = (e2 env rs).1.1)
    (henv : ∀ env rs, (c.execute env rs).2 = (e2 env rs).2)
    (cfg : GenerationConfig) (st : LoopState E) :
    stepTurn { c with execute := e2 } cfg st = stepTurn c cfg st := by
  simp only [stepTurn]
  rw [← hobs st.env (processResponses
    (c.decode (c.generate (cut_to_effective_len st.rollings)).1))]
  rw [← henv st.env (processResponses
    (c.decode (c.generate (cut_to_effective_len st.rollings)).1))]

theorem runTurns_execSwap {E : Type} (c : Collab E)
    (e2 : E → List String → (List String × List Bool) × E)
    (hobs : ∀ env rs, (c.execute env rs).1.1 = (e2 env rs).1.1)
    (henv : ∀ env rs, (c.execute env rs).2 = (e2 env rs).2)
    (cfg : GenerationConfig) :
    ∀ (n : Nat) (st : LoopState E),
      runTurns { c with execute := e2 } cfg n st = runTurns c cfg n st := by
  intro n
  induction n with
  | zero => intro st; rfl
  | succ n ih =>
    intro st
    simp only [runTurns]
    rw [stepTurn_execSwap c e2 hobs henv cfg st, ih]

/-- C2: `run_llm_loop` always performs exactly `max_turns`
generate/sanitize/step/re-assemble iterations, and the `dones` returned by
`execute_predictions` are never inspected: replacing the `execute`
collaborator by one returning the same observations and environment
updates but arbitrary done flags leaves the whole run unchanged, so the
loop cannot stop early even when every environment reports done. -/
theorem c2_constant_turns {E : Type} (c : Collab E)
    (e2 : E → List String → (List String × List Bool) × E)
    (cfg : GenerationConfig) (gb : RollState) (env0 : E) (ii : Tensor)
    (hobs : ∀ env rs, (c.execute env rs).1.1 = (e2 env rs).1.1)
    (henv : ∀ env rs, (c.execute env rs).2 = (e2 env rs).2) :
    countGen (run_llm_loop c cfg gb env0 ii).2 = cfg.max_turns ∧
    run_llm_loop { c with execute := e2 } cfg gb env0 ii
      = run_llm_loop c cfg gb env0 ii := by
  constructor
  · exact countGen_runTurns c cfg cfg.max_turns _
  · simp only [run_llm_loop]
    rw [runTurns_execSwap c e2 hobs henv cfg]

/-- Witness for C2: a two-turn run of the concrete collaborators performs
exactly two generations, and a dones-swapped collaborator gives the same run. -/
theorem c2_constant_turns_witness :
    countGen (run_llm_loop trivCollab ⟨2, 1, 4, 1, 2⟩
      ⟨[[1]], [[1]], [[0]]⟩ () [[1, 2]]).2 = 2 ∧
    run_llm_loop { trivCollab with execute := fun e rs =>
        ((rs.map (fun _ => "o"), rs.map (fun _ => true)), e) } ⟨2, 1, 4, 1, 2⟩
      ⟨[[1]], [[1]], [[0]]⟩ () [[1, 2]]
      = run_llm_loop trivCollab ⟨2, 1, 4, 1, 2⟩ ⟨[[1]], [[1]], [[0]]⟩ () [[1, 2]] :=
  c2_constant_turns trivCollab
    (fun e rs => ((rs.map (fun _ => "o"), rs.map (fun _ => true)), e))
    ⟨2, 1, 4, 1, 2⟩ ⟨[[1]], [[1]], [[0]]⟩ () [[1, 2]]
    (fun _ _ => rfl) (fun _ _ => rfl)

theorem okTrace_cons7 (r1 : RollState) (raw obs1 : List String) (rest : List Ev) :
    okTrace (Ev.gen r1 :: Ev.decoded raw :: Ev.sanitized (processResponses raw) ::
      Ev.stepped (processResponses raw) :: Ev.obsProcessed obs1 :: Ev.rolled ::
      Ev.righted :: rest) = okTrace rest := by
  simp only [okTrace]
  simp

theorem okTrace_runTurns {E : Type} (c : Collab E) (cfg : GenerationConfig) :
    ∀ (n : Nat) (st : LoopState E), okTrace (runTurns c cfg n st).2 = true := by
  intro n
  induction n with
  | zero => intro st; rfl
  | succ n ih =>
    intro st
    show okTrace ((stepTurn c cfg st).2
      ++ (runTurns c cfg n (stepTurn c cfg st).1).2) = true
    rw [stepTurn_snd]
    simp only [List.cons_append, List.nil_append]
    rw [okTrace_cons7]
    exact ih _

/-- C7: in every iteration of `run_llm_loop` the operations occur in the
fixed order generate / decode+sanitize / environment step / observation
processing / rolling-state update / right-side update, and the environment
step always receives the sanitized responses (which are
`_process_responses` of the decoded output), never the raw text: the whole
event trace satisfies the `okTrace` discipline. -/
theorem c7_operation_order {E : Type} (c : Collab E) (cfg : GenerationConfig)
    (gb : RollState) (env0 : E) (ii : Tensor) :
    okTrace (run_llm_loop c cfg gb env0 ii).2 = true :=
  okTrace_runTurns c cfg cfg.max_turns _

/-- C9: the left-side prompt slice `initial_input_ids[:, -max_start_length:]`
is fixed before the loop and no turn modifies it: the `prompts` field of the
final output equals exactly that slice of the initial input, whatever the
collaborators, starting batch, environments and number of turns. -/
theorem c9_prompt_frame {E F : Type} (c : Collab E) (d : Collab F)
    (cfg cfg2 : GenerationConfig) (gb gb2 : RollState) (env0 : E) (env1 : F)
    (ii : Tensor) (h : cfg.max_start_length = cfg2.max_start_length) :
    (run_llm_loop c cfg gb env0 ii).1.prompts
      = ii.map (negSlice cfg.max_start_length) ∧
    (run_llm_loop c cfg gb env0 ii).1.prompts
      = (run_llm_loop d cfg2 gb2 env1 ii).1.prompts := by
  refine ⟨rfl, ?_⟩
  show ii.map (negSlice cfg.max_start_length) = ii.map (negSlice cfg2.max_start_length)
  rw [h]

/-- Witness for C9 with different collaborators and configs sharing
`max_start_length`. -/
theorem c9_prompt_frame_witness :
    (run_llm_loop trivCollab ⟨1, 2, 3, 1, 2⟩ ⟨[[1]], [[1]], [[0]]⟩ () [[1, 2, 3]]).1.prompts
      = [[1, 2, 3]].map (negSlice 2) ∧
    (run_llm_loop trivCollab ⟨1, 2, 3, 1, 2⟩ ⟨[[1]], [[1]], [[0]]⟩ () [[1, 2, 3]]).1.prompts
      = (run_llm_loop trivCollab ⟨5, 2, 4, 7, 1⟩ ⟨[[2]], [[1]], [[0]]⟩ ()
          [[1, 2, 3]]).1.prompts :=
  c9_prompt_frame trivCollab trivCollab ⟨1, 2, 3, 1, 2⟩ ⟨5, 2, 4, 7, 1⟩
    ⟨[[1]], [[1]], [[0]]⟩ ⟨[[2]], [[1]], [[0]]⟩ () () [[1, 2, 3]] rfl

/-- C10: the orchestration is deterministic glue: two runs with identical
inputs and extensionally identical deterministic collaborators return
identical final outputs and traces. -/
theorem c10_determinism {E : Type} (c1 c2 : Collab E) (cfg : GenerationConfig)
    (gb : RollState) (env0 : E) (ii : Tensor)
    (hpad : c1.pad = c2.pad)
    (htok : ∀ rs, c1.tokenize rs = c2.tokenize rs)
    (htokObs : ∀ rs, c1.tokenizeObs rs = c2.tokenizeObs rs)
    (hdec : ∀ t, c1.decode t = c2.decode t)
    (hgen : ∀ s, c1.generate s = c2.generate s)
    (hexe : ∀ env rs, c1.execute env rs = c2.execute env rs) :
    run_llm_loop c1 cfg gb env0 ii = run_llm_loop c2 cfg gb env0 ii := by
  have hc : c1 = c2 := by
    obtain ⟨p1, t1, o1, d1, g1, x1⟩ := c1
    obtain ⟨p2, t2, o2, d2, g2, x2⟩ := c2
    have h1 : p1 = p2 := hpad
    have h2 : t1 = t2 := funext htok
    have h3 : o1 = o2 := funext htokObs
    have h4 : d1 = d2 := funext hdec
    have h5 : g1 = g2 := funext hgen
    have h6 : x1 = x2 := funext (fun env => funext (fun rs => hexe env rs))
    rw [h1, h2, h3, h4, h5, h6]
  rw [hc]

/-- Witness for C10 at the concrete collaborators. -/
theorem c10_determinism_witness :
    run_llm_loop trivCollab ⟨1, 1, 3, 1, 2⟩ ⟨[[1]], [[1]], [[0]]⟩ () [[1, 2]]
      = run_llm_loop trivCollab ⟨1, 1, 3, 1, 2⟩ ⟨[[1]], [[1]], [[0]]⟩ () [[1, 2]] :=
  c10_determinism trivCollab trivCollab ⟨1, 1, 3, 1, 2⟩ ⟨[[1]], [[1]], [[0]]⟩ ()
    [[1, 2]] rfl (fun _ => rfl) (fun _ => rfl) (fun _ => rfl) (fun _ => rfl)
    (fun _ _ => rfl)

end Ragen
